import Mathlib

/-!
Verification of the AccordAI retrieval core (backend/app): text chunking,
embedding-dimension normalization, multi-query retrieval with
deduplication, session-scoped document isolation with search fallback,
and the bounded conversation stores.  Each definition is a shallow
embedding of the corresponding Python function; external collaborators
(the Pinecone index, the sentence-transformer encoder, the LLM) enter as
explicit parameters or outcome values.
-/

deriving instance DecidableEq for Except

/-- A word-window chunk as built by `VectorService.chunk_text`
(backend/app/services/vector_service.py).  The Python code sets the
`id` field to the md5 hex digest of `chunk_text[:100] + str(i)`; the
digest function is an opaque external hash, so the model records the
hash input in `id_seed`, which determines the digest. -/

structure Chunk where
  id_seed : String
  text : String
  chunk_index : Nat
  word_count : Nat
  start_word : Nat
  end_word : Nat
deriving DecidableEq

/-- Helper for `pySplit`: scan the character list, accumulating the
current word (in reverse) and emitting it at each whitespace run. -/

def pySplitAux : List Char → List Char → List String
  | [], acc => if acc.isEmpty then [] else [String.mk acc.reverse]
  | c :: rest, acc =>
    if c.isWhitespace then
      if acc.isEmpty then pySplitAux rest []
      else String.mk acc.reverse :: pySplitAux rest []
    else pySplitAux rest (c :: acc)

/-- Python `text.split()` with no separator argument: split on runs of
whitespace, discarding empty tokens. -/

def pySplit (text : String) : List String :=
  pySplitAux text.data []

/-- Python `sep.join(ws)`: the words interleaved with the separator. -/

def pyJoin (sep : String) : List String → String
  | [] => ""
  | [w] => w
  | w :: ws => w ++ sep ++ pyJoin sep ws

/-- Python slice `s[:n]` on a string: its first `n` characters. -/

def pyTake (s : String) (n : Nat) : String :=
  String.mk (s.data.take n)

/-- The chunk dict appended at loop index `i` of `chunk_text`:
`words[i:i + chunk_size]` joined by single spaces, with
`chunk_index = i // stride`, `start_word = i` and
`end_word = min(i + chunk_size, len(words))`. -/

def mkChunk (words : List String) (chunk_size stride i : Nat) : Chunk :=
  let chunk_words := (words.drop i).take chunk_size
  let ctext := pyJoin " " chunk_words
  { id_seed := pyTake ctext 100 ++ toString i
    text := ctext
    chunk_index := i / stride
    word_count := chunk_words.length
    start_word := i
    end_word := min (i + chunk_size) words.length }

/-- The loop body of `chunk_text`: Python
`for i in range(0, len(words), stride)` together with the trailing
`break` once `i + chunk_size >= len(words)`.  The range only iterates
while `i < len(words)` and only for a positive stride.  The recursion is
indexed by explicit fuel to keep it kernel-reducible; `chunk_text`
passes `len(words)` fuel, which always suffices because each iteration
requires `i < len(words)` and advances `i` by the positive stride. -/

def chunkLoop (words : List String) (chunk_size stride : Nat) : (fuel i : Nat) → List Chunk
  | 0, _ => []
  | fuel + 1, i =>
    if 0 < stride ∧ i < words.length then
      if words.length ≤ i + chunk_size then [mkChunk words chunk_size stride i]
      else mkChunk words chunk_size stride i :: chunkLoop words chunk_size stride fuel (i + stride)
    else []

/-- `VectorService.chunk_text` (vector_service.py, lines 28-53).  The
Python loop is `range(0, len(words), chunk_size - overlap)`: a zero step
(`overlap == chunk_size`) raises `ValueError` from `range` before any
chunk is produced, a negative step (`overlap > chunk_size`) makes the
range empty so the empty list is returned, and a positive step runs the
window loop. -/

def chunk_text (text : String) (chunk_size overlap : Nat) : Except String (List Chunk) :=
  let words := pySplit text
  if chunk_size = overlap then
    .error "range() arg 3 must not be zero"
  else if chunk_size < overlap then
    .ok []
  else
    .ok (chunkLoop words chunk_size (chunk_size - overlap) words.length 0)

structure NpMatrix where
  rows : List (List Float)
  dim : Nat
  rect : ∀ r ∈ rows, r.length = dim

/-- The `reshape(1, -1)` guard of `create_embeddings`: a rank-1 encode
result (a single vector) becomes a one-row batch, a rank-2 result is
kept as is. -/

def reshapeEncoded : List Float ⊕ NpMatrix → NpMatrix
  | .inl v => ⟨[v], v.length, by intro r hr; rw [List.mem_singleton] at hr; rw [hr]⟩
  | .inr m => m

/-- `VectorService.create_embeddings` (vector_service.py, lines 55-91)
after the external `SentenceTransformer.encode` call, whose raw result
(rank 1 for a collapsed single text, rank 2 otherwise) is the `encoded`
argument.  The code reshapes rank 1 to a one-row batch, zero-pads every
row on the right when the native dimension is below `target_dimension`,
truncates each row to the first `target_dimension` components when it is
above, passes rows through unchanged when equal, and finally re-checks
the resulting column count against `target_dimension`, raising
`ValueError` on mismatch. -/

def create_embeddings (encoded : List Float ⊕ NpMatrix) (target_dimension : Nat) :
    Except String (List (List Float)) :=
  let embeddings := reshapeEncoded encoded
  let current_dim := embeddings.dim
  let adjusted : List (List Float) :=
    if current_dim < target_dimension then
      embeddings.rows.map (fun r => r ++ List.replicate (target_dimension - current_dim) 0.0)
    else if target_dimension < current_dim then
      embeddings.rows.map (fun r => r.take target_dimension)
    else embeddings.rows
  let final_dim :=
    if current_dim < target_dimension then target_dimension
    else if target_dimension < current_dim then target_dimension
    else current_dim
  if final_dim ≠ target_dimension then
    .error "Final embedding dimension doesn't match target"
  else
    .ok adjusted

structure VMatch where
  vid : String
  document_id : String
  chunk_index : Nat
  text : String
  word_count : Nat
  start_word : Nat
  end_word : Nat
  score : Rat
deriving DecidableEq

/-- The chunk dict built from one index match inside
`retrieve_relevant_chunks` (vector_service.py, lines 234-245). -/

structure RChunk where
  id : String
  text : String
  score : Rat
  chunk_index : Nat
  word_count : Nat
  start_word : Nat
  end_word : Nat
deriving DecidableEq

def matchToChunk (m : VMatch) : RChunk :=
  { id := m.vid, text := m.text, score := m.score, chunk_index := m.chunk_index,
    word_count := m.word_count, start_word := m.start_word, end_word := m.end_word }

/-- Python `s.strip()`: remove leading and trailing whitespace. -/

def pyStrip (s : String) : String :=
  String.mk (((s.data.dropWhile Char.isWhitespace).reverse.dropWhile Char.isWhitespace).reverse)

/-- Python stable `chunks.sort(key=chunk_index)` as used at the end of
`retrieve_relevant_chunks`; Python sorting is stable, modelled by the
stable insertion sort. -/

def sortByChunkIndex (cs : List RChunk) : List RChunk :=
  List.insertionSort (fun a b => a.chunk_index ≤ b.chunk_index) cs

/-- `VectorService.retrieve_relevant_chunks` (vector_service.py, lines
204-256).  The embedding call plus the `_search_with_fallback` round
trip are abstracted into `searchOutcome` (`.error` when any step
raised).  A query that is empty after stripping returns `[]` before the
search is consulted; the enclosing `try/except` turns any raised
exception into `[]`; otherwise the matches are converted to chunk dicts
and re-sorted by `chunk_index` ascending. -/

def retrieve_relevant_chunks (query : String)
    (searchOutcome : Except String (List VMatch)) : List RChunk :=
  if pyStrip query = "" then []
  else
    match searchOutcome with
    | .error _ => []
    | .ok ms => sortByChunkIndex (ms.map matchToChunk)

/-- A retained retrieval result with the tag recording which query
variant produced it (the `query_type` key added in analysis.py; the
chatbot variant calls the same key `query_source`). -/

structure TaggedChunk where
  chunk : RChunk
  query_type : String
deriving DecidableEq

/-- One query contribution of the dedup accumulation shared by
`_retrieve_multi_query_chunks` (analysis.py) and
`_retrieve_contextual_chunks` (chatbot.py): append each chunk whose
vector id has not been seen yet, tagged with the originating query. -/

def dedupAppend (st : List String × List TaggedChunk) (tag : String)
    (cs : List RChunk) : List String × List TaggedChunk :=
  cs.foldl
    (fun st c => if c.id ∈ st.1 then st else (c.id :: st.1, st.2 ++ [⟨c, tag⟩])) st

/-- The `for i, secondary_query in enumerate(secondary_queries)` loop of
`_retrieve_multi_query_chunks`, applied to the already-retrieved result
list of each secondary query. -/

def secondaryFold (st : List String × List TaggedChunk) (i : Nat) :
    List (List RChunk) → List String × List TaggedChunk
  | [] => st
  | cs :: rest =>
      secondaryFold (dedupAppend st ("secondary_" ++ toString (i + 1)) cs) (i + 1) rest

/-- The merge-and-dedup stage of `_retrieve_multi_query_chunks`
(analysis.py, lines 72-107): primary results first, then each secondary
query in order, dropping chunks whose vector id was already seen. -/

def mergeQueries (primary : List RChunk) (secondaries : List (List RChunk)) :
    List TaggedChunk :=
  (secondaryFold (dedupAppend ([], []) "primary" primary) 0 secondaries).2

/-- Python stable `all_chunks.sort(key=score, reverse=True)`: stable
sort by descending relevance score. -/

def sortByScoreDesc (ts : List TaggedChunk) : List TaggedChunk :=
  List.insertionSort (fun a b => b.chunk.score ≤ a.chunk.score) ts

/-- `_retrieve_multi_query_chunks` (analysis.py, lines 62-116): merge,
dedup, sort by score descending and truncate to `top_k`.  The
`retrieve_relevant_chunks` collaborator calls appear as the
already-computed `primary` and `secondaries` result lists. -/

def retrieve_multi_query_chunks (primary : List RChunk)
    (secondaries : List (List RChunk)) (top_k : Nat) : List TaggedChunk :=
  (sortByScoreDesc (mergeQueries primary secondaries)).take top_k

/-- The secondary-query loop with the per-query `try/except` explicit:
a query whose retrieval raised is logged and skipped, contributing
nothing, and the loop continues. -/

def secondaryFoldExc (st : List String × List TaggedChunk) (i : Nat) :
    List (Except String (List RChunk)) → List String × List TaggedChunk
  | [] => st
  | .ok cs :: rest =>
      secondaryFoldExc (dedupAppend st ("secondary_" ++ toString (i + 1)) cs) (i + 1) rest
  | .error _ :: rest => secondaryFoldExc st (i + 1) rest

/-- `_retrieve_multi_query_chunks` with each per-query outcome explicit:
the primary `try/except` (analysis.py, lines 76-91) swallows a primary
failure exactly like a secondary one, and the function always returns a
plain chunk list. -/

def retrieve_multi_query_chunks_exc (primary : Except String (List RChunk))
    (secondaries : List (Except String (List RChunk))) (top_k : Nat) :
    List TaggedChunk :=
  let st1 := match primary with
    | .ok cs => dedupAppend ([], []) "primary" cs
    | .error _ => ([], [])
  (sortByScoreDesc (secondaryFoldExc st1 0 secondaries).2).take top_k

/-- The value of the `try/except` around a `retrieve_relevant_chunks`
call site: the retrieved chunks on success, nothing on a raised
exception. -/

def exceptToChunks (r : Except String (List RChunk)) : List RChunk :=
  match r with
  | .ok cs => cs
  | .error _ => []

/-- The query loop of `_retrieve_contextual_chunks` (chatbot.py, lines
194-213): query 0 is tagged `primary`, query `i > 0` is tagged
`expanded_i`, with the same seen-id dedup. -/

def contextualFold (st : List String × List TaggedChunk) (i : Nat) :
    List (List RChunk) → List String × List TaggedChunk
  | [] => st
  | cs :: rest =>
      contextualFold
        (dedupAppend st (if i = 0 then "primary" else "expanded_" ++ toString i) cs)
        (i + 1) rest

/-- `_retrieve_contextual_chunks` (chatbot.py, lines 177-230): the same
merge/dedup over the expanded query list, sorted by descending score and
truncated to `top_k`. -/

def retrieve_contextual_chunks (results : List (List RChunk)) (top_k : Nat) :
    List TaggedChunk :=
  (sortByScoreDesc (contextualFold ([], []) 0 results).2).take top_k

def SeenInv (st : List String × List TaggedChunk) : Prop :=
  ∀ x, x ∈ st.1 ↔ x ∈ st.2.map (fun t => t.chunk.id)

def tagFold (tagOf : Nat → String) (st : List String × List TaggedChunk) (i : Nat) :
    List (List RChunk) → List String × List TaggedChunk
  | [] => st
  | cs :: rest => tagFold tagOf (dedupAppend st (tagOf i) cs) (i + 1) rest

instance : IsTotal RChunk (fun a b => a.chunk_index ≤ b.chunk_index) :=
  ⟨fun a b => Nat.le_total a.chunk_index b.chunk_index⟩

instance : IsTrans RChunk (fun a b => a.chunk_index ≤ b.chunk_index) :=
  ⟨fun _ _ _ h1 h2 => le_trans h1 h2⟩

instance : IsTotal TaggedChunk (fun a b => b.chunk.score ≤ a.chunk.score) :=
  ⟨fun a b => le_total b.chunk.score a.chunk.score⟩

instance : IsTrans TaggedChunk (fun a b => b.chunk.score ≤ a.chunk.score) :=
  ⟨fun _ _ _ h1 h2 => le_trans h2 h1⟩

/-- C5 counterexample: feeding `retrieve_relevant_chunks` matches with
`chunk_index` values 3, 1, 2 (scores 9, 5, 7) into the document-analysis
merge `_retrieve_multi_query_chunks` returns the chunks ordered 3, 2, 1
(score descending), not 1, 2, 3 (chunk_index ascending). -/

structure StoredVector where
  vid : String
  document_id : String
  chunk_index : Nat
  text : String
deriving DecidableEq

instance (sim : StoredVector → Rat) :
    DecidableRel (fun a b : StoredVector => sim b ≤ sim a) :=
  fun a b => inferInstanceAs (Decidable (sim b ≤ sim a))

/-- Model of the external Pinecone `index.query` (spec section 4.3):
ranked matches in descending similarity order, truncated to `top_k`;
with a metadata filter, only vectors accepted by the server-side
evaluation of the `$eq` predicate participate.  `sim` gives each stored
vector its similarity against the query embedding; `filt` is the
server-side acceptance test on the `document_id` metadata field (`none`
for an unfiltered query). -/

def pineconeQuery (index : List StoredVector) (sim : StoredVector → Rat)
    (filt : Option (String → Bool)) (top_k : Nat) : List StoredVector :=
  let candidates := match filt with
    | some f => index.filter (fun v => f v.document_id)
    | none => index
  (List.insertionSort (fun a b => sim b ≤ sim a) candidates).take top_k

/-- `VectorService._search_with_fallback` (vector_service.py, lines
258-306).  Strategy 1 queries with the server-side `$eq` filter on
`document_id` (its evaluation abstracted as `serverEq`; a correct
server evaluates string equality).  When it yields no matches,
strategy 2 issues the same query unfiltered and post-filters the
matches client-side by comparing the `document_id` metadata field to
the target; when that too yields nothing, the empty match list is
returned. -/

def search_with_fallback (index : List StoredVector) (sim : StoredVector → Rat)
    (serverEq : String → String → Bool) (document_id : String) (top_k : Nat) :
    List StoredVector :=
  let s1 := pineconeQuery index sim (some (fun d => serverEq d document_id)) top_k
  if s1 ≠ [] then s1
  else
    let s2 := pineconeQuery index sim none top_k
    let filtered := s2.filter (fun v => v.document_id == document_id)
    if filtered ≠ [] then filtered else []

/-- The Scoped Document Id built at upload, analysis and chat time:
Python `f"{session_id}_{document_id}"` (documents.py line 73,
analysis.py line 590, chatbot.py line 434). -/

def scopedDocumentId (session_id document_id : String) : String :=
  session_id ++ "_" ++ document_id

structure ChatMessage where
  role : String
  content : String
  timestamp : String
  document_id : Option String
deriving DecidableEq

/-- The shared body of `SimpleConversationStore.add_message`
(chatbot.py, lines 65-81, cap 20) and
`ConversationMemoryStore.add_message` (chatbot_service.py, lines 23-41,
cap 50): append the new message, then keep only the most recent `cap`
entries (Python slice `lst[-cap:]`, which keeps the final `cap`
elements for the positive caps used). -/

def bounded_add_message (cap : Nat) (log : List ChatMessage)
    (role content timestamp : String) (document_id : Option String) :
    List ChatMessage :=
  let l := log ++ [⟨role, content, timestamp, document_id⟩]
  if cap < l.length then l.drop (l.length - cap) else l

/-- `SimpleConversationStore.add_message` with
`max_history_per_session = 20`. -/

def simple_add_message (log : List ChatMessage) (role content timestamp : String)
    (document_id : Option String) : List ChatMessage :=
  bounded_add_message 20 log role content timestamp document_id

/-- `ConversationMemoryStore.add_message` with
`max_conversations_per_session = 50`. -/

def memory_add_message (log : List ChatMessage) (role content timestamp : String)
    (document_id : Option String) : List ChatMessage :=
  bounded_add_message 50 log role content timestamp document_id

/-- `bounded_add_message` as a fold step over whole messages. -/

def bounded_add (cap : Nat) (log : List ChatMessage) (m : ChatMessage) :
    List ChatMessage :=
  bounded_add_message cap log m.role m.content m.timestamp m.document_id

def chat_generate_and_store (log : List ChatMessage)
    (llm : Except String String) (user_message : String)
    (document_id : Option String) (ts1 ts2 : String) :
    List ChatMessage × Except String String :=
  match llm with
  | .error e => (log, .error ("AI generation failed: " ++ e))
  | .ok answer =>
      (simple_add_message
        (simple_add_message log "user" user_message ts1 document_id)
        "assistant" answer ts2 document_id, .ok answer)

/-- The generation-then-store step of `LegalChatbotService.chat`
(chatbot_service.py, lines 188-209): `ainvoke` runs first; the
enclosing `except` answers with an apology response carrying the error
(modelled as the `.error` outcome) and the memory store is untouched;
on success the user message and then the assistant response are
stored. -/

def service_chat_store (log : List ChatMessage)
    (llm : Except String String) (user_message : String)
    (document_id : Option String) (ts1 ts2 : String) :
    List ChatMessage × Except String String :=
  match llm with
  | .error e => (log, .error e)
  | .ok answer =>
      (memory_add_message
        (memory_add_message log "user" user_message ts1 document_id)
        "assistant" answer ts2 document_id, .ok answer)

/-- C10: in both chat paths the conversation log is written only after a
successful generation: an LLM failure surfaces an error outcome and
returns the log unchanged, while a success appends exactly the user
message first and the assistant answer second. -/

theorem chunk_text_eval_window :
    chunk_text "a b c d e" 2 1 = .ok
    [ { id_seed := "a b0", text := "a b", chunk_index := 0, word_count := 2,
        start_word := 0, end_word := 2 },
      { id_seed := "b c1", text := "b c", chunk_index := 1, word_count := 2,
        start_word := 1, end_word := 3 },
      { id_seed := "c d2", text := "c d", chunk_index := 2, word_count := 2,
        start_word := 2, end_word := 4 },
      { id_seed := "d e3", text := "d e", chunk_index := 3, word_count := 2,
        start_word := 3, end_word := 5 } ] := by decide

theorem chunk_text_eval_empty :
    chunk_text "" 800 100 = .ok [] := by decide

theorem mkChunk_start_word (words : List String) (chunk_size stride i : Nat) :
    (mkChunk words chunk_size stride i).start_word = i := rfl

theorem mkChunk_end_word (words : List String) (chunk_size stride i : Nat) :
    (mkChunk words chunk_size stride i).end_word = min (i + chunk_size) words.length := rfl

/-- Every word index between the loop index and the end of the word list
is covered by some emitted window. -/

theorem chunkLoop_cover (words : List String) (chunk_size stride : Nat)
    (hs : 0 < stride) (hsc : stride ≤ chunk_size) :
    ∀ fuel i w, words.length ≤ fuel + i → i ≤ w → w < words.length →
      ∃ c ∈ chunkLoop words chunk_size stride fuel i,
        c.start_word ≤ w ∧ w < c.end_word := by
  intro fuel
  induction fuel with
  | zero => intro i w hf hiw hw; omega
  | succ fuel ih =>
    intro i w hf hiw hw
    have hi : i < words.length := by omega
    simp only [chunkLoop]
    rw [if_pos ⟨hs, hi⟩]
    by_cases hend : words.length ≤ i + chunk_size
    · rw [if_pos hend]
      refine ⟨mkChunk words chunk_size stride i, List.mem_singleton.mpr rfl, ?_, ?_⟩
      · rw [mkChunk_start_word]; exact hiw
      · rw [mkChunk_end_word]; omega
    · rw [if_neg hend]
      by_cases hwlt : w < i + chunk_size
      · refine ⟨mkChunk words chunk_size stride i, List.mem_cons_self _ _, ?_, ?_⟩
        · rw [mkChunk_start_word]; exact hiw
        · rw [mkChunk_end_word]; omega
      · obtain ⟨c, hc, h1, h2⟩ := ih (i + stride) w (by omega) (by omega) hw
        exact ⟨c, List.mem_cons_of_mem _ hc, h1, h2⟩

/-- A non-finished loop starts with the window at the current index. -/

theorem chunkLoop_head (words : List String) (chunk_size stride fuel i : Nat)
    (hs : 0 < stride) (hi : i < words.length) (hf : words.length ≤ fuel + i) :
    ∃ rest, chunkLoop words chunk_size stride fuel i
      = mkChunk words chunk_size stride i :: rest := by
  cases fuel with
  | zero => omega
  | succ fuel =>
    simp only [chunkLoop]
    rw [if_pos ⟨hs, hi⟩]
    by_cases hend : words.length ≤ i + chunk_size
    · rw [if_pos hend]; exact ⟨[], rfl⟩
    · rw [if_neg hend]; exact ⟨_, rfl⟩

/-- A non-finished loop ends with a window reaching the last word. -/

theorem chunkLoop_last (words : List String) (chunk_size stride : Nat)
    (hs : 0 < stride) (hsc : stride ≤ chunk_size) :
    ∀ fuel i, words.length ≤ fuel + i → i < words.length →
      ∃ pre c, chunkLoop words chunk_size stride fuel i = pre ++ [c] ∧
        c.end_word = words.length := by
  intro fuel
  induction fuel with
  | zero => intro i hf hi; omega
  | succ fuel ih =>
    intro i hf hi
    simp only [chunkLoop]
    rw [if_pos ⟨hs, hi⟩]
    by_cases hend : words.length ≤ i + chunk_size
    · rw [if_pos hend]
      refine ⟨[], mkChunk words chunk_size stride i, rfl, ?_⟩
      rw [mkChunk_end_word]; omega
    · rw [if_neg hend]
      push_neg at hend
      obtain ⟨pre, c, heq, hc⟩ := ih (i + stride) (by omega) (by omega)
      exact ⟨mkChunk words chunk_size stride i :: pre, c, by rw [heq]; rfl, hc⟩

/-- C1: for every text and every `overlap < chunk_size`, `chunk_text`
succeeds and returns windows whose word ranges together cover every word
of the input at least once, with the first window starting at word 0 and
the last window ending exactly at the last word (even when shorter than
`chunk_size`); a text with no words yields the empty sequence rather
than an error. -/

theorem chunk_text_coverage (text : String) (chunk_size overlap : Nat)
    (h : overlap < chunk_size) :
    ∃ cs, chunk_text text chunk_size overlap = .ok cs ∧
      (∀ w, w < (pySplit text).length →
        ∃ c ∈ cs, c.start_word ≤ w ∧ w < c.end_word) ∧
      (pySplit text = [] → cs = []) ∧
      (pySplit text ≠ [] → ∃ c0 rest pre cl,
        cs = c0 :: rest ∧ c0.start_word = 0 ∧
        cs = pre ++ [cl] ∧ cl.end_word = (pySplit text).length) := by
  have hne : ¬ chunk_size = overlap := by omega
  have hnlt : ¬ chunk_size < overlap := by omega
  refine ⟨chunkLoop (pySplit text) chunk_size (chunk_size - overlap)
    (pySplit text).length 0, ?_, ?_, ?_, ?_⟩
  · simp only [chunk_text]
    rw [if_neg hne, if_neg hnlt]
  · intro w hw
    exact chunkLoop_cover (pySplit text) chunk_size (chunk_size - overlap)
      (by omega) (by omega) (pySplit text).length 0 w (by omega) (by omega) hw
  · intro hnil
    rw [hnil]
    rfl
  · intro hnn
    have hlen : 0 < (pySplit text).length := List.length_pos.mpr hnn
    obtain ⟨rest, hhead⟩ := chunkLoop_head (pySplit text) chunk_size
      (chunk_size - overlap) (pySplit text).length 0 (by omega) hlen (by omega)
    obtain ⟨pre, cl, hsplit, hend⟩ := chunkLoop_last (pySplit text) chunk_size
      (chunk_size - overlap) (by omega) (by omega) (pySplit text).length 0
      (by omega) hlen
    exact ⟨mkChunk (pySplit text) chunk_size (chunk_size - overlap) 0, rest,
      pre, cl, hhead, rfl, hsplit, hend⟩

/-- Witness for C1 at a concrete input. -/

theorem chunk_text_coverage_witness :
    ∃ cs, chunk_text "alpha beta gamma delta" 3 1 = .ok cs ∧
      (∀ w, w < (pySplit "alpha beta gamma delta").length →
        ∃ c ∈ cs, c.start_word ≤ w ∧ w < c.end_word) ∧
      (pySplit "alpha beta gamma delta" = [] → cs = []) ∧
      (pySplit "alpha beta gamma delta" ≠ [] → ∃ c0 rest pre cl,
        cs = c0 :: rest ∧ c0.start_word = 0 ∧
        cs = pre ++ [cl] ∧ cl.end_word = (pySplit "alpha beta gamma delta").length) :=
  chunk_text_coverage "alpha beta gamma delta" 3 1 (by decide)

/-- C3 counterexample: with `overlap > chunk_size` (here 101 vs 100) the
code silently returns an empty chunk list for a non-empty text instead
of raising an argument error. -/

theorem chunk_text_overlap_counterexample :
    chunk_text "a b c" 100 101 = .ok [] ∧
    ∀ e, chunk_text "a b c" 100 101 ≠ .error e := by
  refine ⟨by decide, fun e he => ?_⟩
  have h1 : chunk_text "a b c" 100 101 = .ok [] := by decide
  rw [h1] at he
  exact Except.noConfusion he

/-- C3 amended: `chunk_text` performs no explicit overlap validation.
With `overlap = chunk_size` the `range` call raises its step-zero
`ValueError` before any chunk is produced, while with
`overlap > chunk_size` the range is empty, so the call silently returns
an empty chunk list; in neither case does the function loop forever. -/

theorem chunk_text_invalid_overlap (text : String) (chunk_size overlap : Nat) :
    (chunk_size = overlap →
      chunk_text text chunk_size overlap = .error "range() arg 3 must not be zero") ∧
    (chunk_size < overlap → chunk_text text chunk_size overlap = .ok []) := by
  constructor
  · intro he
    simp [chunk_text, he]
  · intro hlt
    have hne : ¬ chunk_size = overlap := by omega
    simp [chunk_text, hne, hlt]

/-- Witness for the amended C3 at concrete inputs. -/

theorem chunk_text_invalid_overlap_witness :
    chunk_text "x y" 100 100 = .error "range() arg 3 must not be zero" ∧
    chunk_text "x y" 100 101 = .ok [] :=
  ⟨(chunk_text_invalid_overlap "x y" 100 100).1 rfl,
   (chunk_text_invalid_overlap "x y" 100 101).2 (by decide)⟩

/-- A numpy rank-2 float array: rectangular rows together with an
explicit column count (numpy keeps `shape[1]` even for zero rows). -/

theorem create_embeddings_eval_pad (encoded : List Float ⊕ NpMatrix)
    (target_dimension : Nat) (hlt : (reshapeEncoded encoded).dim < target_dimension) :
    create_embeddings encoded target_dimension = .ok
      ((reshapeEncoded encoded).rows.map
        (fun r => r ++ List.replicate (target_dimension - (reshapeEncoded encoded).dim) 0.0)) := by
  have h2 : ¬ target_dimension < (reshapeEncoded encoded).dim := by omega
  simp [create_embeddings, hlt, h2]

theorem create_embeddings_eval_trunc (encoded : List Float ⊕ NpMatrix)
    (target_dimension : Nat) (hgt : target_dimension < (reshapeEncoded encoded).dim) :
    create_embeddings encoded target_dimension = .ok
      ((reshapeEncoded encoded).rows.map (fun r => r.take target_dimension)) := by
  have h1 : ¬ (reshapeEncoded encoded).dim < target_dimension := by omega
  simp [create_embeddings, h1, hgt]

theorem create_embeddings_eval_id (encoded : List Float ⊕ NpMatrix)
    (target_dimension : Nat) (heq : (reshapeEncoded encoded).dim = target_dimension) :
    create_embeddings encoded target_dimension = .ok (reshapeEncoded encoded).rows := by
  simp [create_embeddings, heq]

/-- C2: for every encode result (of any native dimension, rank 1 or
rank 2) the normalizer succeeds and returns one vector per input row,
each of length exactly `target_dimension`: zero-padded on the right when
the native dimension is smaller, truncated to the first
`target_dimension` components when larger, unchanged when equal; a
rank-1 (single text) encode result still yields a batch of one vector. -/

theorem create_embeddings_dimension (encoded : List Float ⊕ NpMatrix)
    (target_dimension : Nat) :
    ∃ out, create_embeddings encoded target_dimension = .ok out ∧
      (∀ r ∈ out, r.length = target_dimension) ∧
      out.length = (reshapeEncoded encoded).rows.length ∧
      ((reshapeEncoded encoded).dim < target_dimension →
        out = (reshapeEncoded encoded).rows.map
          (fun r => r ++ List.replicate (target_dimension - (reshapeEncoded encoded).dim) 0.0)) ∧
      (target_dimension < (reshapeEncoded encoded).dim →
        out = (reshapeEncoded encoded).rows.map (fun r => r.take target_dimension)) ∧
      ((reshapeEncoded encoded).dim = target_dimension →
        out = (reshapeEncoded encoded).rows) ∧
      (∀ v : List Float, encoded = .inl v → out.length = 1) := by
  rcases Nat.lt_trichotomy (reshapeEncoded encoded).dim target_dimension with hlt | heq | hgt
  · refine ⟨_, create_embeddings_eval_pad encoded target_dimension hlt,
      ?_, ?_, ?_, ?_, ?_, ?_⟩
    · intro r hr
      simp only [List.mem_map] at hr
      obtain ⟨r0, hr0, rfl⟩ := hr
      have hr0l := (reshapeEncoded encoded).rect r0 hr0
      simp only [List.length_append, List.length_replicate]
      omega
    · simp
    · intro _; rfl
    · intro hc; omega
    · intro hc; omega
    · intro v hv; subst hv; simp [reshapeEncoded]
  · refine ⟨_, create_embeddings_eval_id encoded target_dimension heq,
      ?_, ?_, ?_, ?_, ?_, ?_⟩
    · intro r hr
      rw [(reshapeEncoded encoded).rect r hr, heq]
    · rfl
    · intro hc; omega
    · intro hc; omega
    · intro _; rfl
    · intro v hv; subst hv; simp [reshapeEncoded]
  · refine ⟨_, create_embeddings_eval_trunc encoded target_dimension hgt,
      ?_, ?_, ?_, ?_, ?_, ?_⟩
    · intro r hr
      simp only [List.mem_map] at hr
      obtain ⟨r0, hr0, rfl⟩ := hr
      have hr0l := (reshapeEncoded encoded).rect r0 hr0
      simp only [List.length_take]
      omega
    · simp
    · intro hc; omega
    · intro _; rfl
    · intro hc; omega
    · intro v hv; subst hv; simp [reshapeEncoded]

/-- A match returned by the vector index: the vector id, the metadata
fields stored at upsert time, and the similarity score (modelled as a
rational number in place of an IEEE float). -/

theorem dedupAppend_nil (st : List String × List TaggedChunk) (tag : String) :
    dedupAppend st tag [] = st := rfl

theorem dedupAppend_cons (st : List String × List TaggedChunk) (tag : String)
    (c : RChunk) (cs : List RChunk) :
    dedupAppend st tag (c :: cs) =
      dedupAppend (if c.id ∈ st.1 then st else (c.id :: st.1, st.2 ++ [⟨c, tag⟩]))
        tag cs := rfl

/-- The seen-id set of the dedup state tracks exactly the vector ids of
the accumulated chunks. -/

theorem seenInv_push (st : List String × List TaggedChunk) (c : RChunk)
    (tag : String) (h : SeenInv st) :
    SeenInv (c.id :: st.1, st.2 ++ [TaggedChunk.mk c tag]) := by
  intro x
  simp only [List.mem_cons, List.map_append, List.mem_append, List.map_cons,
    List.map_nil, List.mem_singleton]
  rw [h x]
  tauto

theorem dedupAppend_prefix (tag : String) (cs : List RChunk) :
    ∀ st : List String × List TaggedChunk, ∃ extra,
      (dedupAppend st tag cs).2 = st.2 ++ extra ∧
      ∀ t ∈ extra, t.query_type = tag ∧ t.chunk ∈ cs := by
  induction cs with
  | nil => intro st; exact ⟨[], by simp [dedupAppend_nil], by simp⟩
  | cons c cs ih =>
    intro st
    rw [dedupAppend_cons]
    by_cases hc : c.id ∈ st.1
    · rw [if_pos hc]
      obtain ⟨extra, h1, h2⟩ := ih st
      exact ⟨extra, h1, fun t ht =>
        ⟨(h2 t ht).1, List.mem_cons_of_mem _ (h2 t ht).2⟩⟩
    · rw [if_neg hc]
      obtain ⟨extra, h1, h2⟩ := ih (c.id :: st.1, st.2 ++ [⟨c, tag⟩])
      refine ⟨⟨c, tag⟩ :: extra, ?_, ?_⟩
      · rw [h1]; simp
      · intro t ht
        rcases List.mem_cons.mp ht with rfl | ht
        · exact ⟨rfl, List.mem_cons_self _ _⟩
        · exact ⟨(h2 t ht).1, List.mem_cons_of_mem _ (h2 t ht).2⟩

theorem dedupAppend_seenInv (tag : String) (cs : List RChunk) :
    ∀ st, SeenInv st → SeenInv (dedupAppend st tag cs) := by
  induction cs with
  | nil => intro st h; exact h
  | cons c cs ih =>
    intro st h
    rw [dedupAppend_cons]
    by_cases hc : c.id ∈ st.1
    · rw [if_pos hc]; exact ih st h
    · rw [if_neg hc]; exact ih _ (seenInv_push st c tag h)

theorem dedupAppend_nodup (tag : String) (cs : List RChunk) :
    ∀ st, SeenInv st → (st.2.map (fun t => t.chunk.id)).Nodup →
      ((dedupAppend st tag cs).2.map (fun t => t.chunk.id)).Nodup := by
  induction cs with
  | nil => intro st _ hn; exact hn
  | cons c cs ih =>
    intro st h hn
    rw [dedupAppend_cons]
    by_cases hc : c.id ∈ st.1
    · rw [if_pos hc]; exact ih st h hn
    · rw [if_neg hc]
      refine ih _ (seenInv_push st c tag h) ?_
      have hnotm : c.id ∉ st.2.map (fun t => t.chunk.id) := fun hm => hc ((h c.id).mpr hm)
      simp only [List.map_append, List.map_cons, List.map_nil]
      rw [List.nodup_append]
      exact ⟨hn, List.nodup_singleton _, by
        intro x hx hx1
        rw [List.mem_singleton] at hx1
        subst hx1
        exact hnotm hx⟩

theorem dedupAppend_seen_mono (tag : String) (cs : List RChunk) :
    ∀ st x, x ∈ st.1 → x ∈ (dedupAppend st tag cs).1 := by
  induction cs with
  | nil => intro st x hx; exact hx
  | cons c cs ih =>
    intro st x hx
    rw [dedupAppend_cons]
    by_cases hc : c.id ∈ st.1
    · rw [if_pos hc]; exact ih st x hx
    · rw [if_neg hc]; exact ih _ x (List.mem_cons_of_mem _ hx)

theorem dedupAppend_seen_all (tag : String) (cs : List RChunk) :
    ∀ st c, c ∈ cs → c.id ∈ (dedupAppend st tag cs).1 := by
  induction cs with
  | nil => intro st c hc; exact absurd hc (List.not_mem_nil c)
  | cons c0 cs ih =>
    intro st c hc
    rw [dedupAppend_cons]
    rcases List.mem_cons.mp hc with rfl | hc
    · by_cases h0 : c.id ∈ st.1
      · rw [if_pos h0]; exact dedupAppend_seen_mono tag cs st c.id h0
      · rw [if_neg h0]
        exact dedupAppend_seen_mono tag cs _ c.id (List.mem_cons_self _ _)
    · by_cases h0 : c0.id ∈ st.1
      · rw [if_pos h0]; exact ih st c hc
      · rw [if_neg h0]; exact ih _ c hc

/-- Common shape of the two indexed dedup loops: fold `dedupAppend` over
the per-query result lists, tagging query `i` with `tagOf i`. -/

theorem secondaryFold_eq_tagFold (ls : List (List RChunk)) :
    ∀ st i, secondaryFold st i ls
      = tagFold (fun j => "secondary_" ++ toString (j + 1)) st i ls := by
  induction ls with
  | nil => intro st i; rfl
  | cons cs rest ih =>
    intro st i
    simp only [secondaryFold, tagFold]
    exact ih _ _

theorem contextualFold_eq_tagFold (ls : List (List RChunk)) :
    ∀ st i, contextualFold st i ls
      = tagFold (fun j => if j = 0 then "primary" else "expanded_" ++ toString j) st i ls := by
  induction ls with
  | nil => intro st i; rfl
  | cons cs rest ih =>
    intro st i
    simp only [contextualFold, tagFold]
    exact ih _ _

theorem tagFold_prefix (tagOf : Nat → String) (ls : List (List RChunk)) :
    ∀ st i, ∃ extra, (tagFold tagOf st i ls).2 = st.2 ++ extra := by
  induction ls with
  | nil => intro st i; exact ⟨[], by simp [tagFold]⟩
  | cons cs rest ih =>
    intro st i
    obtain ⟨e1, h1, _⟩ := dedupAppend_prefix (tagOf i) cs st
    obtain ⟨e2, h2⟩ := ih (dedupAppend st (tagOf i) cs) (i + 1)
    refine ⟨e1 ++ e2, ?_⟩
    simp only [tagFold]
    rw [h2, h1, List.append_assoc]

theorem tagFold_seenInv (tagOf : Nat → String) (ls : List (List RChunk)) :
    ∀ st i, SeenInv st → SeenInv (tagFold tagOf st i ls) := by
  induction ls with
  | nil => intro st i h; exact h
  | cons cs rest ih =>
    intro st i h
    simp only [tagFold]
    exact ih _ _ (dedupAppend_seenInv (tagOf i) cs st h)

theorem tagFold_nodup (tagOf : Nat → String) (ls : List (List RChunk)) :
    ∀ st i, SeenInv st → (st.2.map (fun t => t.chunk.id)).Nodup →
      ((tagFold tagOf st i ls).2.map (fun t => t.chunk.id)).Nodup := by
  induction ls with
  | nil => intro st i _ hn; exact hn
  | cons cs rest ih =>
    intro st i h hn
    simp only [tagFold]
    exact ih _ _ (dedupAppend_seenInv (tagOf i) cs st h)
      (dedupAppend_nodup (tagOf i) cs st h hn)

theorem tagFold_source (tagOf : Nat → String) (ls : List (List RChunk)) :
    ∀ st i, ∀ t ∈ (tagFold tagOf st i ls).2,
      t ∈ st.2 ∨ ∃ j cs, ls[j]? = some cs ∧ t.query_type = tagOf (i + j) ∧
        t.chunk ∈ cs := by
  induction ls with
  | nil => intro st i t ht; left; exact ht
  | cons cs rest ih =>
    intro st i t ht
    simp only [tagFold] at ht
    rcases ih _ (i + 1) t ht with hin | ⟨j, cs', hj, htag, hmem⟩
    · obtain ⟨extra, he, hprop⟩ := dedupAppend_prefix (tagOf i) cs st
      rw [he] at hin
      rcases List.mem_append.mp hin with h | h
      · left; exact h
      · right
        refine ⟨0, cs, by simp, ?_, (hprop t h).2⟩
        rw [(hprop t h).1, Nat.add_zero]
    · right
      refine ⟨j + 1, cs', by simpa using hj, ?_, hmem⟩
      rw [htag]
      congr 1
      omega

theorem seenInv_empty : SeenInv ([], []) := by
  intro x; simp

theorem mergeQueries_eq_tagFold (primary : List RChunk)
    (secondaries : List (List RChunk)) :
    mergeQueries primary secondaries
      = (tagFold (fun j => "secondary_" ++ toString (j + 1))
          (dedupAppend ([], []) "primary" primary) 0 secondaries).2 := by
  simp only [mergeQueries, secondaryFold_eq_tagFold]

theorem mergeQueries_nodup (primary : List RChunk)
    (secondaries : List (List RChunk)) :
    ((mergeQueries primary secondaries).map (fun t => t.chunk.id)).Nodup := by
  rw [mergeQueries_eq_tagFold]
  refine tagFold_nodup _ secondaries _ 0
    (dedupAppend_seenInv _ primary _ seenInv_empty)
    (dedupAppend_nodup _ primary _ seenInv_empty (by simp))

theorem mergeQueries_source (primary : List RChunk)
    (secondaries : List (List RChunk)) :
    ∀ t ∈ mergeQueries primary secondaries,
      (t.query_type = "primary" ∧ t.chunk ∈ primary) ∨
      ∃ j cs, secondaries[j]? = some cs ∧
        t.query_type = "secondary_" ++ toString (j + 1) ∧ t.chunk ∈ cs := by
  intro t ht
  rw [mergeQueries_eq_tagFold] at ht
  rcases tagFold_source _ secondaries _ 0 t ht with hin | ⟨j, cs, hj, htag, hm⟩
  · left
    obtain ⟨extra, he, hprop⟩ := dedupAppend_prefix "primary" primary ([], [])
    rw [he] at hin
    simp only [List.nil_append] at hin
    exact hprop t hin
  · right
    refine ⟨j, cs, hj, ?_, hm⟩
    rw [htag]
    congr 2
    omega

theorem mergeQueries_primary_first (primary : List RChunk)
    (secondaries : List (List RChunk)) :
    ∀ c ∈ primary, ∃ t ∈ mergeQueries primary secondaries,
      t.chunk.id = c.id ∧ t.query_type = "primary" := by
  intro c hc
  have hInvP : SeenInv (dedupAppend ([], []) "primary" primary) :=
    dedupAppend_seenInv _ primary _ seenInv_empty
  have hseen : c.id ∈ (dedupAppend ([], []) "primary" primary).1 :=
    dedupAppend_seen_all _ primary _ c hc
  have hid := (hInvP c.id).mp hseen
  obtain ⟨t, htP, hteq⟩ := List.mem_map.mp hid
  obtain ⟨extra, he, hprop⟩ := dedupAppend_prefix "primary" primary ([], [])
  have htag : t.query_type = "primary" := by
    have := htP
    rw [he] at this
    simp only [List.nil_append] at this
    exact (hprop t this).1
  obtain ⟨extra2, he2⟩ := tagFold_prefix (fun j => "secondary_" ++ toString (j + 1))
    secondaries (dedupAppend ([], []) "primary" primary) 0
  refine ⟨t, ?_, hteq, htag⟩
  rw [mergeQueries_eq_tagFold, he2]
  exact List.mem_append_left _ htP

theorem sortByScoreDesc_perm (ts : List TaggedChunk) :
    List.Perm (sortByScoreDesc ts) ts :=
  List.perm_insertionSort _ ts

theorem mem_sortTake {t : TaggedChunk} {ts : List TaggedChunk} {k : Nat}
    (h : t ∈ (sortByScoreDesc ts).take k) : t ∈ ts :=
  (sortByScoreDesc_perm ts).mem_iff.mp (List.mem_of_mem_take h)

theorem nodup_ids_sortTake (ts : List TaggedChunk) (k : Nat)
    (h : (ts.map (fun t => t.chunk.id)).Nodup) :
    (((sortByScoreDesc ts).take k).map (fun t => t.chunk.id)).Nodup := by
  have hperm : List.Perm ((sortByScoreDesc ts).map (fun t => t.chunk.id))
      (ts.map (fun t => t.chunk.id)) :=
    (sortByScoreDesc_perm ts).map _
  have hsorted : ((sortByScoreDesc ts).map (fun t => t.chunk.id)).Nodup :=
    hperm.nodup_iff.mpr h
  rw [List.map_take]
  exact List.Nodup.sublist (List.take_sublist k _) hsorted

theorem contextualMerge_nodup (results : List (List RChunk)) :
    (((contextualFold ([], []) 0 results).2).map (fun t => t.chunk.id)).Nodup := by
  rw [contextualFold_eq_tagFold]
  exact tagFold_nodup _ results _ 0 seenInv_empty (by simp)

theorem contextualMerge_source (results : List (List RChunk)) :
    ∀ t ∈ (contextualFold ([], []) 0 results).2,
      ∃ j cs, results[j]? = some cs ∧ t.chunk ∈ cs ∧
        t.query_type = (if j = 0 then "primary" else "expanded_" ++ toString j) := by
  intro t ht
  rw [contextualFold_eq_tagFold] at ht
  rcases tagFold_source _ results _ 0 t ht with hin | ⟨j, cs, hj, htag, hm⟩
  · exact absurd hin (List.not_mem_nil t)
  · refine ⟨j, cs, hj, hm, ?_⟩
    simpa using htag

/-- C4: multi-query retrieval merges the primary and secondary query
results so that each vector id appears at most once; the first
occurrence wins (any id returned by the primary query is retained with
the `primary` tag), and every retained result carries a tag naming the
query variant that produced it (`primary` / `secondary_i` in the
analysis merge, `primary` / `expanded_i` in the chatbot merge). -/

theorem multi_query_dedup_tagging (primary : List RChunk)
    (secondaries : List (List RChunk)) (top_k : Nat)
    (results : List (List RChunk)) :
    ((retrieve_multi_query_chunks primary secondaries top_k).map
      (fun t => t.chunk.id)).Nodup ∧
    (∀ t ∈ retrieve_multi_query_chunks primary secondaries top_k,
      (t.query_type = "primary" ∧ t.chunk ∈ primary) ∨
      ∃ j cs, secondaries[j]? = some cs ∧
        t.query_type = "secondary_" ++ toString (j + 1) ∧ t.chunk ∈ cs) ∧
    (∀ c ∈ primary, ∃ t ∈ mergeQueries primary secondaries,
      t.chunk.id = c.id ∧ t.query_type = "primary") ∧
    ((retrieve_contextual_chunks results top_k).map (fun t => t.chunk.id)).Nodup ∧
    (∀ t ∈ retrieve_contextual_chunks results top_k,
      ∃ j cs, results[j]? = some cs ∧ t.chunk ∈ cs ∧
        t.query_type = (if j = 0 then "primary" else "expanded_" ++ toString j)) := by
  refine ⟨?_, ?_, mergeQueries_primary_first primary secondaries, ?_, ?_⟩
  · exact nodup_ids_sortTake _ top_k (mergeQueries_nodup primary secondaries)
  · intro t ht
    exact mergeQueries_source primary secondaries t (mem_sortTake ht)
  · exact nodup_ids_sortTake _ top_k (contextualMerge_nodup results)
  · intro t ht
    exact contextualMerge_source results t (mem_sortTake ht)

theorem analysis_order_counterexample :
    ((retrieve_multi_query_chunks
        (retrieve_relevant_chunks "compensation"
          (.ok [⟨"v3", "doc", 3, "t3", 10, 0, 10, 9⟩,
                ⟨"v1", "doc", 1, "t1", 10, 0, 10, 5⟩,
                ⟨"v2", "doc", 2, "t2", 10, 0, 10, 7⟩]))
        [] 3).map (fun t => t.chunk.chunk_index)) = [3, 2, 1] ∧
    [3, 2, 1] ≠ [1, 2, 3] := by
  constructor <;> decide

/-- C5 amended: the chunk_index-ascending presentation order holds for a
single `retrieve_relevant_chunks` call, but the multi-query merge that
document-analysis consumers receive re-sorts the merged results by score
descending before truncating to `top_k`, so the final sequence is
ordered by score descending (score decides both inclusion and order),
not by chunk_index ascending. -/

theorem retrieval_order_amended (query : String)
    (out : Except String (List VMatch)) (primary : List RChunk)
    (secondaries : List (List RChunk)) (top_k : Nat) :
    List.Pairwise (fun a b => a.chunk_index ≤ b.chunk_index)
      (retrieve_relevant_chunks query out) ∧
    List.Pairwise (fun a b => b.chunk.score ≤ a.chunk.score)
      (retrieve_multi_query_chunks primary secondaries top_k) ∧
    (retrieve_multi_query_chunks primary secondaries top_k).length ≤ top_k := by
  refine ⟨?_, ?_, ?_⟩
  · unfold retrieve_relevant_chunks
    by_cases hq : pyStrip query = ""
    · rw [if_pos hq]; exact List.Pairwise.nil
    · rw [if_neg hq]
      match out with
      | .error _ => exact List.Pairwise.nil
      | .ok ms => exact List.sorted_insertionSort _ _
  · exact List.Pairwise.sublist (List.take_sublist _ _)
      (List.sorted_insertionSort _ _)
  · exact List.length_take_le _ _

theorem secondaryFoldExc_eq (ls : List (Except String (List RChunk))) :
    ∀ st i, secondaryFoldExc st i ls = secondaryFold st i (ls.map exceptToChunks) := by
  induction ls with
  | nil => intro st i; rfl
  | cons e rest ih =>
    intro st i
    match e with
    | .ok cs =>
      simp only [secondaryFoldExc, List.map_cons, exceptToChunks, secondaryFold]
      exact ih _ _
    | .error msg =>
      simp only [secondaryFoldExc, List.map_cons, exceptToChunks, secondaryFold,
        dedupAppend_nil]
      exact ih _ _

theorem retrieve_multi_query_exc_eq (p : Except String (List RChunk))
    (secs : List (Except String (List RChunk))) (top_k : Nat) :
    retrieve_multi_query_chunks_exc p secs top_k
      = retrieve_multi_query_chunks (exceptToChunks p)
          (secs.map exceptToChunks) top_k := by
  cases p with
  | ok cs =>
    simp only [retrieve_multi_query_chunks_exc, exceptToChunks,
      retrieve_multi_query_chunks, mergeQueries, secondaryFoldExc_eq]
  | error e =>
    simp only [retrieve_multi_query_chunks_exc, exceptToChunks,
      retrieve_multi_query_chunks, mergeQueries, secondaryFoldExc_eq,
      dedupAppend_nil]

/-- C9 counterexample: when the primary query itself errors, the
document-analysis retrieval does not propagate any failure: the
exception is caught and the call returns the secondary-query results as
a normal chunk list. -/

theorem primary_failure_counterexample :
    retrieve_multi_query_chunks_exc (.error "primary query failed")
      [.ok [⟨"D", "td", 4, 7, 3, 0, 3⟩]] 3
      = [⟨⟨"D", "td", 4, 7, 3, 0, 3⟩, "secondary_1"⟩] := by decide

/-- C9 amended: no failure ever propagates out of multi-query retrieval.
A primary-query failure is caught and contributes nothing, exactly like
a secondary failure, and the merge proceeds over whatever succeeded
(worst case the empty list); a query that is empty after stripping makes
`retrieve_relevant_chunks` return `[]` without consulting the search,
and an exception inside the single-query retrieval likewise becomes
`[]` rather than an error. -/

theorem retrieval_failure_amended (p : Except String (List RChunk))
    (secs : List (Except String (List RChunk))) (top_k : Nat)
    (query : String) (out1 out2 : Except String (List VMatch)) (e : String) :
    retrieve_multi_query_chunks_exc p secs top_k
      = retrieve_multi_query_chunks (exceptToChunks p)
          (secs.map exceptToChunks) top_k ∧
    (pyStrip query = "" → retrieve_relevant_chunks query out1 = [] ∧
      retrieve_relevant_chunks query out1 = retrieve_relevant_chunks query out2) ∧
    retrieve_relevant_chunks query (.error e) = [] := by
  refine ⟨retrieve_multi_query_exc_eq p secs top_k, ?_, ?_⟩
  · intro hq
    simp [retrieve_relevant_chunks, hq]
  · by_cases hq : pyStrip query = ""
    · simp [retrieve_relevant_chunks, hq]
    · simp [retrieve_relevant_chunks, hq]

/-- Witness for the amended C9 at concrete inputs. -/

theorem retrieval_failure_amended_witness :
    (retrieve_multi_query_chunks_exc (.error "x") [.ok []] 3
      = retrieve_multi_query_chunks (exceptToChunks (.error "x"))
          ([Except.ok []].map exceptToChunks) 3) ∧
    (retrieve_relevant_chunks "  " (.ok []) = [] ∧
      retrieve_relevant_chunks "  " (.ok [])
        = retrieve_relevant_chunks "  " (.error "y")) ∧
    retrieve_relevant_chunks "  " (.error "y") = [] :=
  ⟨(retrieval_failure_amended (.error "x") [.ok []] 3 "  " (.ok []) (.error "y") "y").1,
   (retrieval_failure_amended (.error "x") [.ok []] 3 "  " (.ok []) (.error "y") "y").2.1
     (by decide),
   (retrieval_failure_amended (.error "x") [.ok []] 3 "  " (.ok []) (.error "y") "y").2.2⟩

/-- A vector record stored in the Pinecone index: the vector id plus the
metadata fields the fallback logic consults (`document_id` foremost). -/

theorem pineconeQuery_mem_filtered (index : List StoredVector)
    (sim : StoredVector → Rat) (f : String → Bool) (top_k : Nat)
    (v : StoredVector) (hv : v ∈ pineconeQuery index sim (some f) top_k) :
    f v.document_id = true := by
  unfold pineconeQuery at hv
  have h1 := List.mem_of_mem_take hv
  have h2 := (List.perm_insertionSort _ _).mem_iff.mp h1
  exact (List.mem_filter.mp h2).2

theorem search_with_fallback_docid (index : List StoredVector)
    (sim : StoredVector → Rat) (target : String) (top_k : Nat) :
    ∀ v ∈ search_with_fallback index sim (fun a b => a == b) target top_k,
      v.document_id = target := by
  intro v hv
  dsimp only [search_with_fallback] at hv
  split at hv
  · have := pineconeQuery_mem_filtered index sim _ top_k v hv
    exact eq_of_beq this
  · split at hv
    · have := (List.mem_filter.mp hv).2
      exact eq_of_beq this
    · exact absurd hv (List.not_mem_nil v)

/-- C6: two distinct sessions storing a document under the same
caller-supplied document id receive distinct Scoped Document Ids, and a
retrieval scoped to one session id (through the filtered search and its
client-side post-filtered fallback) only returns vectors whose
`document_id` metadata equals that scoped id, hence never a chunk stored
under the other session. -/

theorem session_isolation (index : List StoredVector)
    (sim : StoredVector → Rat) (s1 s2 d : String) (top_k : Nat)
    (h : s1 ≠ s2) :
    scopedDocumentId s1 d ≠ scopedDocumentId s2 d ∧
    ∀ v ∈ search_with_fallback index sim (fun a b => a == b)
        (scopedDocumentId s1 d) top_k,
      v.document_id = scopedDocumentId s1 d ∧
      v.document_id ≠ scopedDocumentId s2 d := by
  have hne : scopedDocumentId s1 d ≠ scopedDocumentId s2 d := by
    intro heq
    apply h
    have hdata : (s1 ++ "_" ++ d).data = (s2 ++ "_" ++ d).data :=
      congrArg String.data heq
    simp only [String.data_append] at hdata
    have h2 : s1.data ++ "_".data = s2.data ++ "_".data :=
      List.append_cancel_right hdata
    have h3 : s1.data = s2.data := List.append_cancel_right h2
    cases s1
    cases s2
    exact congrArg String.mk h3
  refine ⟨hne, fun v hv => ?_⟩
  have hd := search_with_fallback_docid index sim (scopedDocumentId s1 d) top_k v hv
  exact ⟨hd, hd ▸ hne⟩

/-- Witness for C6 at a concrete input. -/

theorem session_isolation_witness :
    scopedDocumentId "sessionA" "contract.pdf"
      ≠ scopedDocumentId "sessionB" "contract.pdf" ∧
    ∀ v ∈ search_with_fallback
        [⟨"v1", scopedDocumentId "sessionB" "contract.pdf", 0, "other"⟩]
        (fun _ => 1) (fun a b => a == b)
        (scopedDocumentId "sessionA" "contract.pdf") 5,
      v.document_id = scopedDocumentId "sessionA" "contract.pdf" ∧
      v.document_id ≠ scopedDocumentId "sessionB" "contract.pdf" :=
  session_isolation _ (fun _ => 1) "sessionA" "sessionB" "contract.pdf" 5
    (by decide)

/-- C7: whenever the filtered query returns zero matches, the fallback
issues the unfiltered query and post-filters its matches client-side by
equality on the `document_id` metadata: the returned result is exactly
the matching-metadata subset of the unfiltered top-k matches (so
matching vectors reachable through the unfiltered query are recovered),
and no returned match carries a `document_id` different from the
target. -/

theorem fallback_recovery (index : List StoredVector) (sim : StoredVector → Rat)
    (serverEq : String → String → Bool) (target : String) (top_k : Nat)
    (h : pineconeQuery index sim (some (fun d => serverEq d target)) top_k = []) :
    search_with_fallback index sim serverEq target top_k
      = (pineconeQuery index sim none top_k).filter
          (fun v => v.document_id == target) ∧
    ∀ v ∈ search_with_fallback index sim serverEq target top_k,
      v.document_id = target := by
  have heq : search_with_fallback index sim serverEq target top_k
      = (pineconeQuery index sim none top_k).filter
          (fun v => v.document_id == target) := by
    dsimp only [search_with_fallback]
    rw [h]
    simp only [ne_eq, not_true_eq_false, if_false]
    split
    · rfl
    · next hf => exact (not_not.mp hf).symm
  refine ⟨heq, fun v hv => ?_⟩
  rw [heq] at hv
  exact eq_of_beq (List.mem_filter.mp hv).2

/-- Witness for C7: a server whose filter evaluation is broken (always
false) yields zero filtered matches although the index holds a vector
whose metadata equals the target; the fallback recovers exactly that
vector. -/

theorem fallback_recovery_witness :
    (search_with_fallback [⟨"v1", "doc", 0, "text"⟩] (fun _ => 1)
        (fun _ _ => false) "doc" 5
      = (pineconeQuery [⟨"v1", "doc", 0, "text"⟩] (fun _ => 1) none 5).filter
          (fun v => v.document_id == "doc") ∧
      ∀ v ∈ search_with_fallback [⟨"v1", "doc", 0, "text"⟩] (fun _ => 1)
          (fun _ _ => false) "doc" 5, v.document_id = "doc") ∧
    search_with_fallback [⟨"v1", "doc", 0, "text"⟩] (fun _ => 1)
        (fun _ _ => false) "doc" 5 = [⟨"v1", "doc", 0, "text"⟩] :=
  ⟨fallback_recovery [⟨"v1", "doc", 0, "text"⟩] (fun _ => 1)
      (fun _ _ => false) "doc" 5 (by decide),
   by decide⟩

/-- A conversation message dict: role, content, timestamp (supplied by
the ambient clock at the call site) and the optional document id. -/

theorem bounded_add_step (cap : Nat) (hc : 0 < cap) (ms : List ChatMessage)
    (m : ChatMessage) :
    bounded_add cap (ms.drop (ms.length - cap)) m
      = (ms ++ [m]).drop ((ms ++ [m]).length - cap) := by
  have hlen : (ms.drop (ms.length - cap)).length = ms.length - (ms.length - cap) :=
    List.length_drop _ _
  by_cases hn : ms.length < cap
  · have h0 : ms.length - cap = 0 := by omega
    have h1 : (ms ++ [m]).length - cap = 0 := by
      simp only [List.length_append, List.length_cons, List.length_nil]
      omega
    rw [h0, List.drop_zero, h1, List.drop_zero]
    dsimp only [bounded_add, bounded_add_message]
    rw [if_neg]
    simp only [List.length_append, List.length_cons, List.length_nil]
    omega
  · have hcap : cap ≤ ms.length := by omega
    dsimp only [bounded_add, bounded_add_message]
    rw [if_pos]
    · have hl : (ms.drop (ms.length - cap) ++
          [ChatMessage.mk m.role m.content m.timestamp m.document_id]).length
          = cap + 1 := by
        simp only [List.length_append, List.length_drop, List.length_cons,
          List.length_nil]
        omega
      rw [hl]
      have hstep : cap + 1 - cap = 1 := by omega
      rw [hstep]
      rw [List.drop_append_of_le_length (by rw [List.length_drop]; omega)]
      rw [List.drop_drop]
      have hidx : ms.length - cap + 1 = (ms ++ [m]).length - cap := by
        simp only [List.length_append, List.length_cons, List.length_nil]
        omega
      rw [hidx]
      rw [List.drop_append_of_le_length (by
        simp only [List.length_append, List.length_cons, List.length_nil]
        omega)]
    · simp only [List.length_append, List.length_drop, List.length_cons,
        List.length_nil]
      omega

theorem bounded_add_closed (cap : Nat) (hc : 0 < cap) (ms : List ChatMessage) :
    ms.foldl (bounded_add cap) [] = ms.drop (ms.length - cap) := by
  induction ms using List.reverseRecOn with
  | nil => simp
  | append_singleton ms m ih =>
    rw [List.foldl_append, List.foldl_cons, List.foldl_nil, ih]
    exact bounded_add_step cap hc ms m

/-- C8: replaying any sequence of appends against an initially empty
session log leaves both conversation stores holding exactly the most
recently appended `cap` messages in their original relative order
(cap 20 for the chatbot API store, cap 50 for the service store), hence
never more than `cap` messages, with the oldest evicted first and
independent of message role or content. -/

theorem conversation_fifo_eviction (ms : List ChatMessage) :
    ms.foldl (fun log m =>
        simple_add_message log m.role m.content m.timestamp m.document_id) []
      = ms.drop (ms.length - 20) ∧
    (ms.foldl (fun log m =>
        simple_add_message log m.role m.content m.timestamp m.document_id) []).length
      ≤ 20 ∧
    ms.foldl (fun log m =>
        memory_add_message log m.role m.content m.timestamp m.document_id) []
      = ms.drop (ms.length - 50) ∧
    (ms.foldl (fun log m =>
        memory_add_message log m.role m.content m.timestamp m.document_id) []).length
      ≤ 50 := by
  have h20 : ms.foldl (fun log m =>
      simple_add_message log m.role m.content m.timestamp m.document_id) []
      = ms.drop (ms.length - 20) := bounded_add_closed 20 (by omega) ms
  have h50 : ms.foldl (fun log m =>
      memory_add_message log m.role m.content m.timestamp m.document_id) []
      = ms.drop (ms.length - 50) := bounded_add_closed 50 (by omega) ms
  refine ⟨h20, ?_, h50, ?_⟩
  · rw [h20, List.length_drop]
    omega
  · rw [h50, List.length_drop]
    omega

/-- The generation-then-store step of `chat_endpoint` (chatbot.py,
lines 512-561): the LLM call runs first (`llm` is its outcome, the
final answer after the response-quality post-processing); on failure an
HTTP 500 error is raised and the conversation store is never touched;
on success the user message and then the assistant answer are appended
to the session log. -/

theorem chat_store_only_after_success (log : List ChatMessage)
    (user_message : String) (document_id : Option String)
    (ts1 ts2 e answer : String) :
    (chat_generate_and_store log (.error e) user_message document_id ts1 ts2).1
      = log ∧
    (chat_generate_and_store log (.error e) user_message document_id ts1 ts2).2
      = .error ("AI generation failed: " ++ e) ∧
    (chat_generate_and_store log (.ok answer) user_message document_id ts1 ts2).1
      = simple_add_message
          (simple_add_message log "user" user_message ts1 document_id)
          "assistant" answer ts2 document_id ∧
    (service_chat_store log (.error e) user_message document_id ts1 ts2).1
      = log ∧
    (service_chat_store log (.error e) user_message document_id ts1 ts2).2
      = .error e ∧
    (service_chat_store log (.ok answer) user_message document_id ts1 ts2).1
      = memory_add_message
          (memory_add_message log "user" user_message ts1 document_id)
          "assistant" answer ts2 document_id :=
  ⟨rfl, rfl, rfl, rfl, rfl, rfl⟩
